import Mathlib

/-!
Verification of the t-bears JSON-RPC mock server
(`src/tbears/server/jsonrpc_server.py`).

The development shallowly embeds the parts of the dispatcher that the
claims are about:

* `JVal` — the universe of JSON-like Python values flowing through the
  server (results of `json.loads`, backend replies, stored transaction
  results).  Python `bool` is a subclass of `int` and no claim involves
  booleans or floats, so the universe is null / int / str / list / dict.
* `TxResultMapper` — the bounded result cache (lines 200-224), with the
  Python `dict` modelled as an insertion-ordered association list with
  unique keys (insert overwrites in place, `del` removes the binding).
* `integers_to_hex` (lines 113-130) and the response post-processing in
  `MockDispatcher.dispatch` (lines 241-244).
* `icx_sendTransaction` (lines 254-299, with `MQ_TEST = False` so the
  `else` branch at lines 291-299 runs), `response_to_json`
  (lines 138-151), `validate_jsonrpc_message` (lines 154-176),
  `get_block_height` (lines 107-110), `icx_getTransactionResult`
  (lines 344-356) and the parse-error path of `MockDispatcher.dispatch`
  (lines 230-237).

External collaborators (the `iconservice` execution backend, the
`JsonRpcMessageValidator`, the wall clock and the SHA3 hash) are not part
of the repository; their outputs enter the model as explicit inputs.
Python exceptions are modelled by `PyErr`; mutation is explicit state
passing, and a raising operation returns the state as mutated up to the
raise point.
-/

/-- JSON-like Python values.  Python `dict` preserves insertion order and
has unique keys, which the association-list representation mirrors. -/
inductive JVal : Type where
  | null : JVal
  | int : Int → JVal
  | str : String → JVal
  | arr : List JVal → JVal
  | dict : List (String × JVal) → JVal
  deriving Repr

mutual

/-- Python `==` on `JVal` (structural equality, as for values produced by
`json.loads`). -/
def JVal.beq : JVal → JVal → Bool
  | .null, .null => true
  | .int a, .int b => a == b
  | .str a, .str b => a == b
  | .arr xs, .arr ys => JVal.beqArr xs ys
  | .dict xs, .dict ys => JVal.beqDict xs ys
  | _, _ => false

/-- Elementwise Python `==` on lists of values. -/
def JVal.beqArr : List JVal → List JVal → Bool
  | [], [] => true
  | x :: xs, y :: ys => JVal.beq x y && JVal.beqArr xs ys
  | _, _ => false

/-- Elementwise Python `==` on dict entry lists. -/
def JVal.beqDict : List (String × JVal) → List (String × JVal) → Bool
  | [], [] => true
  | (k1, v1) :: xs, (k2, v2) :: ys => k1 == k2 && JVal.beq v1 v2 && JVal.beqDict xs ys
  | _, _ => false

end

instance : BEq JVal := ⟨JVal.beq⟩

/-- Python exceptions that can surface in the dispatcher, including the
structured `GenericJsonRpcServerError` (lines 179-197): a json-rpc error
code, a message (an arbitrary value in `response_to_json`), and an HTTP
status. -/
inductive PyErr : Type where
  | keyError : PyErr
  | indexError : PyErr
  | typeError : PyErr
  | jsonRpcError (code : Int) (message : JVal) (http_status : Nat) : PyErr
  deriving Repr

/-- `jsonrpcserver.status.HTTP_BAD_REQUEST`. -/
def HTTP_BAD_REQUEST : Nat := 400

/-- `jsonrpcserver.exceptions.ServerError.code`. -/
def SERVER_ERROR_CODE : Int := -32000

/-- `jsonrpcserver.exceptions.InvalidParams.code`. -/
def INVALID_PARAMS_CODE : Int := -32602

/-- `d.get(k)` like membership test on an association list, using the
Python equality of the key type. -/
def assocHasKey {K V : Type} [BEq K] (l : List (K × V)) (k : K) : Bool :=
  l.any (fun kv => kv.1 == k)

/-- Python `d[k] = v` on an insertion-ordered dict: overwrite in place if
the key is present, append otherwise. -/
def assocInsert {K V : Type} [BEq K] (l : List (K × V)) (k : K) (v : V) : List (K × V) :=
  match l with
  | [] => [(k, v)]
  | (k0, v0) :: rest => if k0 == k then (k0, v) :: rest else (k0, v0) :: assocInsert rest k v

/-- Python `del d[k]` on a dict with the key present: drop the (unique)
binding of `k`.  On an association list this drops the first match. -/
def assocDel {K V : Type} [BEq K] (l : List (K × V)) (k : K) : List (K × V) :=
  match l with
  | [] => []
  | (k0, v0) :: rest => if k0 == k then rest else (k0, v0) :: assocDel rest k

/-- Python `d.get(k, None)`: the stored value, or `none`. -/
def assocGet {K V : Type} [BEq K] (l : List (K × V)) (k : K) : Option V :=
  (l.find? (fun kv => kv.1 == k)).map Prod.snd

/-- Python `v[key]` for a string subscript: a dict lookup raising
`KeyError` on a missing key, and `TypeError` on every non-dict value
(lists and strings reject string subscripts, `int` and `None` are not
subscriptable). -/
def jvalGetItem (v : JVal) (key : String) : Except PyErr JVal :=
  match v with
  | .dict kvs =>
    match assocGet kvs key with
    | some w => .ok w
    | none => .error .keyError
  | _ => .error .typeError

/-- Python `hex(i)`: `0x` followed by lowercase hex digits, with a leading
`-` for negative arguments. -/
def pyHex (i : Int) : String :=
  (if i < 0 then "-0x" else "0x") ++ String.mk (Nat.toDigits 16 i.natAbs)

mutual

/-- The rewriting `integers_to_hex` (lines 113-130) performs on each value
of a dict or element of a list: recurse into nested dicts and lists,
replace an `int` by `hex(v)`, and leave every other value unchanged. -/
def convElem : JVal → JVal
  | .int n => .str (pyHex n)
  | .arr xs => .arr (convArr xs)
  | .dict kvs => .dict (convDict kvs)
  | v => v

/-- The loop `for k, v in res.items()` of `integers_to_hex` over a dict. -/
def convDict : List (String × JVal) → List (String × JVal)
  | [] => []
  | (k, v) :: rest => (k, convElem v) :: convDict rest

/-- The loop `for k, v in enumerate(res)` of `integers_to_hex` over a
list. -/
def convArr : List JVal → List JVal
  | [] => []
  | v :: rest => convElem v :: convArr rest

end

/-- `integers_to_hex` (lines 113-130): rewrites the values of a dict and
the elements of a list as `convElem` does, and returns every other
argument — in particular a bare `int` — unchanged, since the function
only branches on `dict` and `list` at the top level. -/
def integers_to_hex (res : JVal) : JVal :=
  match res with
  | .dict kvs => .dict (convDict kvs)
  | .arr xs => .arr (convArr xs)
  | v => v

/-- The post-processing step of `MockDispatcher.dispatch` (lines 241-243):
`if isinstance(res['result'], (dict, list, int)): res['result'] =
integers_to_hex(res['result'])`. -/
def dispatch_postprocess (result : JVal) : JVal :=
  match result with
  | .dict kvs => integers_to_hex (.dict kvs)
  | .arr xs => integers_to_hex (.arr xs)
  | .int n => integers_to_hex (.int n)
  | v => v

mutual

/-- Follows the spec's words (§4.3): every integer leaf value, recursively
through nested mappings and lists and including a bare integer, is
rewritten to its lowercase hex string form with a 0x marker. -/
def hex_normalize_spec : JVal → JVal
  | .int n => .str (pyHex n)
  | .arr xs => .arr (hex_normalize_specArr xs)
  | .dict kvs => .dict (hex_normalize_specDict kvs)
  | v => v

/-- Spec-side normalizer mapped over a dict's entries. -/
def hex_normalize_specDict : List (String × JVal) → List (String × JVal)
  | [] => []
  | (k, v) :: rest => (k, hex_normalize_spec v) :: hex_normalize_specDict rest

/-- Spec-side normalizer mapped over a list's elements. -/
def hex_normalize_specArr : List JVal → List JVal
  | [] => []
  | v :: rest => hex_normalize_spec v :: hex_normalize_specArr rest

end

/-- The bounded result cache `TxResultMapper` (lines 200-224).  The fields
are the attributes set in `__init__`: the capacity (default 1000), the
dict `__mapper`, and the append-only insertion log `__key_list`. -/
structure TxResultMapper (K V : Type) where
  limit_capacity : Nat
  mapper : List (K × V)
  key_list : List K

/-- `TxResultMapper.__init__` with the default `limit_capacity = 1000`. -/
def TxResultMapper.empty {K V : Type} (cap : Nat := 1000) : TxResultMapper K V :=
  { limit_capacity := cap, mapper := [], key_list := [] }

/-- `TxResultMapper.len` (lines 223-224): `len(self.__mapper)`. -/
def TxResultMapper.len {K V : Type} (m : TxResultMapper K V) : Nat :=
  m.mapper.length

/-- `TxResultMapper.__check_limit` (lines 217-221).  `self.__key_list[0]`
on an empty list raises `IndexError`; `del self.__mapper[key]` raises
`KeyError` when `key` is not in the dict, after `pop(0)` already ran, so
the popped log is kept in the error outcome. -/
def TxResultMapper.check_limit {K V : Type} [BEq K] (m : TxResultMapper K V) :
    TxResultMapper K V × Option PyErr :=
  if m.len > m.limit_capacity then
    match m.key_list with
    | [] => (m, some .indexError)
    | key :: rest =>
      if assocHasKey m.mapper key then
        ({ m with key_list := rest, mapper := assocDel m.mapper key }, none)
      else
        ({ m with key_list := rest }, some .keyError)
  else (m, none)

/-- `TxResultMapper.put` (lines 206-209): run `__check_limit`, then append
the key to `__key_list` and insert/overwrite in `__mapper`.  An exception
in `__check_limit` aborts the put, leaving the state as mutated so far. -/
def TxResultMapper.put {K V : Type} [BEq K] (m : TxResultMapper K V) (key : K) (value : V) :
    TxResultMapper K V × Option PyErr :=
  match m.check_limit with
  | (m', some e) => (m', some e)
  | (m', none) =>
    ({ m' with key_list := m'.key_list ++ [key], mapper := assocInsert m'.mapper key value },
      none)

/-- `TxResultMapper.get` (lines 211-212): `self.__mapper.get(key, None)`,
total. -/
def TxResultMapper.get {K V : Type} [BEq K] (m : TxResultMapper K V) (key : K) : Option V :=
  assocGet m.mapper key

/-- `TxResultMapper.__getitem__` (lines 214-215): `self.__mapper[item]`,
raising `KeyError` on a miss. -/
def TxResultMapper.getitem {K V : Type} [BEq K] (m : TxResultMapper K V) (item : K) :
    Except PyErr V :=
  match assocGet m.mapper item with
  | some v => .ok v
  | none => .error .keyError

/-- A sequence of `put` calls, keeping only the cache state (the server
keeps using the same `TxResultMapper` instance after a raising put, since
the exception propagates out of the request handler). -/
def TxResultMapper.putSeq {K V : Type} [BEq K] (m : TxResultMapper K V)
    (ops : List (K × V)) : TxResultMapper K V :=
  ops.foldl (fun m kv => (m.put kv.1 kv.2).1) m

/-- A sequence of `put` calls, also recording whether each put raised. -/
def TxResultMapper.putSeqErrs {K V : Type} [BEq K] (m : TxResultMapper K V) :
    List (K × V) → TxResultMapper K V × List (Option PyErr)
  | [] => (m, [])
  | (k, v) :: ops =>
    let r := m.put k v
    let rest := r.1.putSeqErrs ops
    (rest.1, r.2 :: rest.2)

/-- `put` calls with the distinct keys `a, a+1, ..., a+n-1` (and the key
doubling as the stored value). -/
def freshOps (a n : Nat) : List (Nat × Nat) :=
  (List.range' a n).map (fun i => (i, i))

/-- The outcome of the external `JsonRpcMessageValidator.validate` call
(an `iconservice` import, outside this repository), fed to
`validate_jsonrpc_message` as an input: success, an
`IconServiceBaseException` carrying a code and message, or any other
exception carrying its `repr`. -/
inductive ValidationOutcome : Type where
  | ok : ValidationOutcome
  | domainError (code : Int) (message : String) : ValidationOutcome
  | unexpectedError (message : String) : ValidationOutcome
  deriving Repr, DecidableEq

/-- `validate_jsonrpc_message` (lines 154-176): success returns; an
`IconServiceBaseException` becomes a `GenericJsonRpcServerError` with the
negated code; any other exception becomes one with `ServerError.code` and
the exception's `repr` — always with HTTP bad-request status. -/
def validate_jsonrpc_message (outcome : ValidationOutcome) : Except PyErr Unit :=
  match outcome with
  | .ok => .ok ()
  | .domainError code message =>
    .error (.jsonRpcError (-code) (.str message) HTTP_BAD_REQUEST)
  | .unexpectedError message =>
    .error (.jsonRpcError SERVER_ERROR_CODE (.str message) HTTP_BAD_REQUEST)

/-- `get_block_height` (lines 107-110): increment the process-wide
`__block_height` (initially 0) and return the new value. -/
def get_block_height (block_height : Nat) : Nat × Nat :=
  (block_height + 1, block_height + 1)

/-- The process-wide mutable state of the server: `__block_height`
(line 42) and `__tx_result_mapper` (line 47, a `TxResultMapper()` with the
default capacity, created by `init_tbears`). -/
structure ServerState where
  block_height : Nat
  tx_result_mapper : TxResultMapper JVal JVal

/-- The state right after `init_tbears` (lines 512-514). -/
def initServerState : ServerState :=
  { block_height := 0, tx_result_mapper := TxResultMapper.empty 1000 }

/-- The backend operations `icx_sendTransaction` awaits on the
`IconScoreInnerTask` (lines 292-298). -/
inductive BCall : Type where
  | icx_send_transaction : BCall
  | write_precommit_state : BCall
  | remove_precommit_state : BCall
  deriving Repr, DecidableEq

/-- `response_to_json` (lines 138-151).  A list reply: take `response[0]`
(IndexError on an empty list), read its `txHash` entry, store the result
in the cache and return the hash.  A non-list reply: raise a
`GenericJsonRpcServerError` with `code = -response['code']` (the lookup
can raise `KeyError`, the negation `TypeError` on a non-int) and
`message = response['message']`. -/
def response_to_json (m : TxResultMapper JVal JVal) (response : JVal) :
    TxResultMapper JVal JVal × Except PyErr JVal :=
  match response with
  | .arr items =>
    match items with
    | [] => (m, .error .indexError)
    | tx_result :: _ =>
      match jvalGetItem tx_result "txHash" with
      | .error e => (m, .error e)
      | .ok tx_hash =>
        let r := m.put tx_hash tx_result
        match r.2 with
        | some e => (r.1, .error e)
        | none => (r.1, .ok tx_hash)
  | _ =>
    match jvalGetItem response "code" with
    | .error e => (m, .error e)
    | .ok c =>
      match c with
      | .int code =>
        match jvalGetItem response "message" with
        | .error e => (m, .error e)
        | .ok msg => (m, .error (.jsonRpcError (-code) msg HTTP_BAD_REQUEST))
      | _ => (m, .error .typeError)

/-- The inputs of one `icx_sendTransaction` call that come from outside
the repository: the validator's outcome, the SHA3 content hash of the
serialized params (`create_hash`, line 266), the sampled microsecond
timestamp and the hash of its 8-byte encoding (lines 275-278), and the
value the backend's `icx_send_transaction` returns (line 292). -/
structure TxEnv where
  validation : ValidationOutcome
  tx_hash : String
  timestamp_us : Int
  block_hash : String
  backend_reply : JVal

/-- The result of one `icx_sendTransaction` call: the backend operations
awaited in order, the final server state, the block height placed in the
synthetic block descriptor (`none` when validation failed before the
descriptor was built), and the returned value or raised exception. -/
structure SendTxResult where
  backend_calls : List BCall
  state : ServerState
  block_height_used : Option Nat
  response : Except PyErr JVal

/-- `MockDispatcher.icx_sendTransaction` (lines 254-299), `MQ_TEST =
False` branch (lines 291-299): validate, inject the tx hash into the
params, build the single-transaction request with a fresh block
descriptor, await the backend execution, then commit
(`write_precommit_state`) when the reply is a list whose first entry has
`status == 1`, and roll back (`remove_precommit_state`) when the reply is
not a list or the status differs — `response[0]` and the `['status']`
lookup can raise first, skipping both — and finally `response_to_json`. -/
def icx_sendTransaction (st : ServerState) (request_params : List (String × JVal))
    (env : TxEnv) : SendTxResult :=
  match validate_jsonrpc_message env.validation with
  | .error e => ⟨[], st, none, .error e⟩
  | .ok _ =>
    let params' := assocInsert request_params "txHash" (.str env.tx_hash)
    let tx : JVal := .dict [("method", .str "icx_sendTransaction"), ("params", .dict params')]
    let bh := get_block_height st.block_height
    let block_height := bh.2
    let block : JVal := .dict [("blockHeight", .int block_height),
      ("blockHash", .str env.block_hash), ("timestamp", .int env.timestamp_us)]
    let _make_request : JVal := .dict [("transactions", .arr [tx]), ("block", block)]
    let st1 : ServerState := { st with block_height := bh.1 }
    let response := env.backend_reply
    let step : List BCall × TxResultMapper JVal JVal × Except PyErr JVal :=
      match response with
      | .arr items =>
        match items with
        | [] => ⟨[.icx_send_transaction], st1.tx_result_mapper, .error .indexError⟩
        | first :: _ =>
          match jvalGetItem first "status" with
          | .error e => ⟨[.icx_send_transaction], st1.tx_result_mapper, .error e⟩
          | .ok s =>
            let decision : BCall :=
              if s == JVal.int 1 then .write_precommit_state else .remove_precommit_state
            let r := response_to_json st1.tx_result_mapper response
            ⟨[.icx_send_transaction, decision], r.1, r.2⟩
      | _ =>
        let r := response_to_json st1.tx_result_mapper response
        ⟨[.icx_send_transaction, .remove_precommit_state], r.1, r.2⟩
    ⟨step.1, { st1 with tx_result_mapper := step.2.1 }, some block_height, step.2.2⟩

/-- How many of the awaited backend calls are commits or rollbacks. -/
def countCommitRollback (calls : List BCall) : Nat :=
  calls.countP (fun c => c == BCall.write_precommit_state || c == BCall.remove_precommit_state)

/-- A sequence of `icx_sendTransaction` calls against the evolving server
state, recording the block height each call placed in its block
descriptor. -/
def runSendTxSeq (st : ServerState) :
    List (List (String × JVal) × TxEnv) → ServerState × List (Option Nat)
  | [] => (st, [])
  | (ps, env) :: rest =>
    let r := icx_sendTransaction st ps env
    let rec_rest := runSendTxSeq r.state rest
    (rec_rest.1, r.block_height_used :: rec_rest.2)

/-- The `GenericJsonRpcServerError` built in the `except Exception` clause
at lines 352-356: `InvalidParams.code`, message `'TransactionResult not
found'`, HTTP bad-request status. -/
def TX_RESULT_NOT_FOUND : PyErr :=
  .jsonRpcError INVALID_PARAMS_CODE (.str "TransactionResult not found") HTTP_BAD_REQUEST

/-- `MockDispatcher.icx_getTransactionResult` (lines 344-356): look the
params' `txHash` up in the cache via `__getitem__`; any exception in the
`try` block is replaced by `TX_RESULT_NOT_FOUND`. -/
def icx_getTransactionResult (request_params : List (String × JVal))
    (m : TxResultMapper JVal JVal) : Except PyErr JVal :=
  let attempt : Except PyErr JVal :=
    match assocGet request_params "txHash" with
    | none => .error .keyError
    | some tx_hash => m.getitem tx_hash
  match attempt with
  | .ok v => .ok v
  | .error _ => .error TX_RESULT_NOT_FOUND

/-- The constant `PARSE_ERROR_RESPONSE` (line 49), exactly the source's
string literal (a pre-serialized JSON text; note that its `id` field is
the quoted string `"null"`). -/
def PARSE_ERROR_RESPONSE : String :=
  "\x7b\"jsonrpc\":\"2.0\", \"error\":\x7b\"code\":-32700, \"message\": \"Parse error\"\x7d, \"id\": \"null\"\x7d"

/-- The JSON value the `PARSE_ERROR_RESPONSE` literal spells out, for
inspecting its fields. -/
def PARSE_ERROR_RESPONSE_json : JVal :=
  .dict [("jsonrpc", .str "2.0"),
    ("error", .dict [("code", .int (-32700)), ("message", .str "Parse error")]),
    ("id", .str "null")]

/-- A response as built by `sanic.response.json(body, status)`: the value
passed (serialized by sanic) and the HTTP status. -/
structure SanicResponse where
  body : JVal
  status : Nat

/-- The body-decoding stage of `MockDispatcher.dispatch` (lines 230-237):
`json.loads` failing with `JSONDecodeError` yields
`sanic_response.json(PARSE_ERROR_RESPONSE, 400)` — the constant string is
passed as the body — for every request, before any method is looked at;
a decodable body goes on to method dispatch (`handler`). -/
def dispatch (decoded : Except Unit JVal) (handler : JVal → SanicResponse) : SanicResponse :=
  match decoded with
  | .error _ => { body := .str PARSE_ERROR_RESPONSE, status := 400 }
  | .ok req => handler req

mutual

theorem convElem_eq_spec : (v : JVal) → convElem v = hex_normalize_spec v
  | .null => rfl
  | .int _ => rfl
  | .str _ => rfl
  | .arr xs => congrArg JVal.arr (convArr_eq_spec xs)
  | .dict kvs => congrArg JVal.dict (convDict_eq_spec kvs)

theorem convDict_eq_spec : (kvs : List (String × JVal)) → convDict kvs = hex_normalize_specDict kvs
  | [] => rfl
  | (k, v) :: rest => by
      rw [convDict, hex_normalize_specDict, convElem_eq_spec v, convDict_eq_spec rest]

theorem convArr_eq_spec : (xs : List JVal) → convArr xs = hex_normalize_specArr xs
  | [] => rfl
  | v :: rest => by
      rw [convArr, hex_normalize_specArr, convElem_eq_spec v, convArr_eq_spec rest]

end

mutual

theorem convElem_idem : (v : JVal) → convElem (convElem v) = convElem v
  | .null => rfl
  | .int _ => rfl
  | .str _ => rfl
  | .arr xs => congrArg JVal.arr (convArr_idem xs)
  | .dict kvs => congrArg JVal.dict (convDict_idem kvs)

theorem convDict_idem : (kvs : List (String × JVal)) → convDict (convDict kvs) = convDict kvs
  | [] => rfl
  | (k, v) :: rest => by
      rw [convDict, convDict, convElem_idem v, convDict_idem rest]

theorem convArr_idem : (xs : List JVal) → convArr (convArr xs) = convArr xs
  | [] => rfl
  | v :: rest => by
      rw [convArr, convArr, convElem_idem v, convArr_idem rest]

end

/-- C5: corrected.  The post-processing step of `dispatch` rewrites every
integer leaf inside a mapping or list result, at any nesting depth, to its
`hex()` string (it agrees with the spec-side normalizer on mappings and
lists) — but a result value that is itself a bare integer is returned
unchanged, because `integers_to_hex` has no top-level `int` branch. -/
theorem dispatch_postprocess_hexifies_containers_only :
    (∀ kvs : List (String × JVal),
      dispatch_postprocess (.dict kvs) = hex_normalize_spec (.dict kvs)) ∧
    (∀ xs : List JVal,
      dispatch_postprocess (.arr xs) = hex_normalize_spec (.arr xs)) ∧
    (∀ n : Int, dispatch_postprocess (.int n) = .int n) :=
  ⟨fun kvs => congrArg JVal.dict (convDict_eq_spec kvs),
   fun xs => congrArg JVal.arr (convArr_eq_spec xs),
   fun _ => rfl⟩

/-- C5: counterexample.  A successful dispatch whose result value is the
bare integer 7 keeps the integer: the post-processing step does not
rewrite it to the hex string, contrary to the claim. -/
theorem dispatch_postprocess_bare_int_unchanged :
    dispatch_postprocess (.int 7) = .int 7 ∧
    hex_normalize_spec (.int 7) = .str "0x7" ∧
    JVal.int 7 ≠ JVal.str "0x7" :=
  ⟨rfl, rfl, fun h => JVal.noConfusion h⟩

/-- C9: confirmed.  The integer-to-hex normalization is idempotent on
every JSON-like value: a second application (in particular an application
to an already-normalized value) returns its argument unchanged — the hex
strings produced by the first pass are left as strings, through nested
mappings and lists of arbitrary depth. -/
theorem integers_to_hex_idem (v : JVal) :
    integers_to_hex (integers_to_hex v) = integers_to_hex v := by
  cases v with
  | arr xs => exact congrArg JVal.arr (convArr_idem xs)
  | dict kvs => exact congrArg JVal.dict (convDict_idem kvs)
  | null => rfl
  | int n => rfl
  | str s => rfl

theorem assocHasKey_cons {K V : Type} [BEq K] (p : K × V) (l : List (K × V)) (k : K) :
    assocHasKey (p :: l) k = (p.1 == k || assocHasKey l k) := by
  simp [assocHasKey, List.any_cons]

theorem assocInsert_of_not_hasKey {K V : Type} [BEq K] {l : List (K × V)} {k : K} (v : V)
    (h : assocHasKey l k = false) : assocInsert l k v = l ++ [(k, v)] := by
  induction l with
  | nil => rfl
  | cons p rest ih =>
    rw [assocHasKey_cons] at h
    simp only [Bool.or_eq_false_iff] at h
    cases p with
    | mk k0 v0 =>
      simp only [assocInsert, h.1, Bool.false_eq_true, if_false, List.cons_append]
      rw [ih h.2]

theorem length_assocInsert_le {K V : Type} [BEq K] (l : List (K × V)) (k : K) (v : V) :
    (assocInsert l k v).length ≤ l.length + 1 := by
  induction l with
  | nil => simp [assocInsert]
  | cons p rest ih =>
    cases p with
    | mk k0 v0 =>
      simp only [assocInsert]
      by_cases h : (k0 == k) = true
      · rw [if_pos h]
        simp
      · rw [if_neg h]
        simp only [List.length_cons]
        omega

theorem length_assocDel_of_hasKey {K V : Type} [BEq K] {l : List (K × V)} {k : K}
    (h : assocHasKey l k = true) : (assocDel l k).length + 1 = l.length := by
  induction l with
  | nil => simp [assocHasKey] at h
  | cons p rest ih =>
    rw [assocHasKey_cons] at h
    cases p with
    | mk k0 v0 =>
      simp only [assocDel]
      by_cases h0 : (k0 == k) = true
      · rw [if_pos h0]
        simp
      · simp only [Bool.or_eq_true] at h
        rcases h with h | h
        · exact absurd h h0
        · rw [if_neg h0]
          simp only [List.length_cons]
          rw [ih h]

theorem len_put_le {K V : Type} [BEq K] (m : TxResultMapper K V) (k : K) (v : V)
    (h : m.len ≤ m.limit_capacity + 1) : ((m.put k v).1).len ≤ m.limit_capacity + 1 := by
  unfold TxResultMapper.put TxResultMapper.check_limit
  by_cases hgt : m.len > m.limit_capacity
  · simp only [hgt, if_true]
    cases hkl : m.key_list with
    | nil => exact h
    | cons k0 rest =>
      by_cases hmem : assocHasKey m.mapper k0 = true
      · simp only [hmem, if_true, TxResultMapper.len]
        have hdel := length_assocDel_of_hasKey hmem
        have := length_assocInsert_le (assocDel m.mapper k0) k v
        simp only [TxResultMapper.len] at h
        omega
      · simp only [Bool.not_eq_true] at hmem
        simp only [hmem, Bool.false_eq_true, if_false]
        exact h
  · simp only [hgt, if_false]
    simp only [TxResultMapper.len] at *
    have := length_assocInsert_le m.mapper k v
    omega

theorem limit_put {K V : Type} [BEq K] (m : TxResultMapper K V) (k : K) (v : V) :
    ((m.put k v).1).limit_capacity = m.limit_capacity := by
  unfold TxResultMapper.put TxResultMapper.check_limit
  by_cases hgt : m.len > m.limit_capacity
  · simp only [hgt, if_true]
    cases m.key_list with
    | nil => rfl
    | cons k0 rest =>
      by_cases hmem : assocHasKey m.mapper k0 = true
      · simp [hmem]
      · simp only [Bool.not_eq_true] at hmem
        simp [hmem]
  · simp [hgt]

theorem len_putSeq_le {K V : Type} [BEq K] (ops : List (K × V)) (m : TxResultMapper K V)
    (h : m.len ≤ m.limit_capacity + 1) :
    (m.putSeq ops).len ≤ m.limit_capacity + 1 := by
  induction ops generalizing m with
  | nil => exact h
  | cons op rest ih =>
    have h1 := len_put_le m op.1 op.2 h
    have h2 := limit_put m op.1 op.2
    have := ih ((m.put op.1 op.2).1) (by rw [h2]; exact h1)
    rw [h2] at this
    simpa [TxResultMapper.putSeq, List.foldl_cons] using this

theorem freshOps_concat (a k : Nat) : freshOps a (k + 1) = freshOps a k ++ [(a + k, a + k)] := by
  unfold freshOps
  rw [List.range'_1_concat, List.map_append]
  rfl

theorem freshOps_cons (a k : Nat) : freshOps a (k + 1) = (a, a) :: freshOps (a + 1) k := by
  unfold freshOps
  rw [List.range'_succ]
  rfl

theorem length_freshOps (a k : Nat) : (freshOps a k).length = k := by
  unfold freshOps
  rw [List.length_map, List.length_range']

theorem hasKey_freshOps_of_ge {j : Nat} : ∀ {a k : Nat}, a + k ≤ j →
    assocHasKey (freshOps a k) j = false := by
  intro a k
  induction k generalizing a with
  | zero => intro _; rfl
  | succ k ih =>
    intro hj
    rw [freshOps_cons, assocHasKey_cons]
    have ha : (a == j) = false := by
      simp only [beq_eq_false_iff_ne, ne_eq]
      omega
    rw [ha, Bool.false_or]
    exact ih (by omega)

theorem putSeq_append {K V : Type} [BEq K] (m : TxResultMapper K V) (ops ops' : List (K × V)) :
    m.putSeq (ops ++ ops') = (m.putSeq ops).putSeq ops' := by
  unfold TxResultMapper.putSeq
  rw [List.foldl_append]

theorem put_small {K V : Type} [BEq K] (m : TxResultMapper K V) (k : K) (v : V)
    (h : ¬ m.len > m.limit_capacity) :
    m.put k v =
      ({ m with key_list := m.key_list ++ [k], mapper := assocInsert m.mapper k v }, none) := by
  unfold TxResultMapper.put TxResultMapper.check_limit
  rw [if_neg h]

theorem put_evict {K V : Type} [BEq K] (m : TxResultMapper K V) (k : K) (v : V)
    {k0 : K} {rest : List K}
    (h : m.len > m.limit_capacity) (hkl : m.key_list = k0 :: rest)
    (hmem : assocHasKey m.mapper k0 = true) :
    m.put k v =
      (TxResultMapper.mk m.limit_capacity (assocInsert (assocDel m.mapper k0) k v)
        (rest ++ [k]), none) := by
  unfold TxResultMapper.put TxResultMapper.check_limit
  rw [if_pos h, hkl]
  simp only [hmem, if_true]

theorem putSeq_fresh_state (c : Nat) : ∀ n : Nat,
    (TxResultMapper.empty c : TxResultMapper Nat Nat).putSeq (freshOps 0 n) =
    { limit_capacity := c, mapper := freshOps (n - (c + 1)) (min n (c + 1)),
      key_list := List.range' (n - (c + 1)) (min n (c + 1)) } := by
  intro n
  induction n with
  | zero => simp [TxResultMapper.putSeq, freshOps, TxResultMapper.empty]
  | succ n ih =>
    have hsplit : freshOps 0 (n + 1) = freshOps 0 n ++ [(n, n)] := by
      have := freshOps_concat 0 n
      simpa using this
    rw [hsplit, putSeq_append, ih]
    by_cases hle : n ≤ c
    · have ha : n - (c + 1) = 0 := by omega
      have hmin : min n (c + 1) = n := by omega
      have ha' : (n + 1) - (c + 1) = 0 := by omega
      have hmin' : min (n + 1) (c + 1) = n + 1 := by omega
      rw [ha, hmin, ha', hmin']
      simp only [TxResultMapper.putSeq, List.foldl_cons, List.foldl_nil]
      rw [put_small]
      · have hins : assocInsert (freshOps 0 n) n n = freshOps 0 n ++ [(n, n)] :=
          assocInsert_of_not_hasKey n (hasKey_freshOps_of_ge (by omega))
        simp only [hins]
        have : freshOps 0 (n + 1) = freshOps 0 n ++ [(n, n)] := hsplit
        rw [← this]
        have hr : List.range' 0 (n + 1) = List.range' 0 n ++ [n] := by
          have := List.range'_1_concat 0 n
          simpa using this
        rw [← hr]
      · simp only [TxResultMapper.len, length_freshOps]
        omega
    · have hgt : n > c := by omega
      have ha : n - (c + 1) + (c + 1) = n := by omega
      have hmin : min n (c + 1) = c + 1 := by omega
      have ha' : (n + 1) - (c + 1) = n - (c + 1) + 1 := by omega
      have hmin' : min (n + 1) (c + 1) = c + 1 := by omega
      rw [hmin, ha', hmin']
      simp only [TxResultMapper.putSeq, List.foldl_cons, List.foldl_nil]
      set a := n - (c + 1) with hadef
      have hlen1 : (TxResultMapper.mk c (freshOps a (c + 1))
          (List.range' a (c + 1)) : TxResultMapper Nat Nat).len > c := by
        simp only [TxResultMapper.len, length_freshOps]
        omega
      have hkl1 : (TxResultMapper.mk c (freshOps a (c + 1))
          (List.range' a (c + 1)) : TxResultMapper Nat Nat).key_list =
          a :: List.range' (a + 1) c := by
        show List.range' a (c + 1) = a :: List.range' (a + 1) c
        rw [List.range'_succ]
      have hmem1 : assocHasKey (freshOps a (c + 1)) a = true := by
        rw [freshOps_cons, assocHasKey_cons]
        simp
      rw [put_evict _ _ _ hlen1 hkl1 hmem1]
      have hdel : assocDel (freshOps a (c + 1)) a = freshOps (a + 1) c := by
        rw [freshOps_cons]
        simp [assocDel]
      rw [hdel]
      have hins : assocInsert (freshOps (a + 1) c) n n = freshOps (a + 1) c ++ [(n, n)] :=
        assocInsert_of_not_hasKey n (hasKey_freshOps_of_ge (by omega))
      rw [hins]
      have h1 : freshOps (a + 1) c ++ [(n, n)] = freshOps (a + 1) (c + 1) := by
        rw [freshOps_concat]
        have : a + 1 + c = n := by omega
        rw [this]
      have h2 : List.range' (a + 1) c ++ [n] = List.range' (a + 1) (c + 1) := by
        rw [List.range'_1_concat]
        have : a + 1 + c = n := by omega
        rw [this]
      rw [h1, h2]

theorem assocGet_cons {K V : Type} [BEq K] (p : K × V) (l : List (K × V)) (k : K) :
    assocGet (p :: l) k = if p.1 == k then some p.2 else assocGet l k := by
  unfold assocGet
  rw [List.find?_cons]
  by_cases h : (p.1 == k) = true
  · simp [h]
  · have h' : (p.1 == k) = false := by simpa using h
    simp [h']

theorem assocGet_insert_self {K V : Type} [BEq K] [LawfulBEq K]
    (l : List (K × V)) (k : K) (v : V) : assocGet (assocInsert l k v) k = some v := by
  induction l with
  | nil => simp [assocInsert, assocGet, List.find?_cons]
  | cons p rest ih =>
    cases p with
    | mk k0 v0 =>
      simp only [assocInsert]
      by_cases h : (k0 == k) = true
      · rw [if_pos h, assocGet_cons]
        simp [h]
      · rw [if_neg h, assocGet_cons]
        simp only [h, Bool.false_eq_true, if_false]
        exact ih

theorem assocGet_insert_ne {K V : Type} [BEq K] [LawfulBEq K]
    (l : List (K × V)) (k : K) (v : V) {j : K} (hj : j ≠ k) :
    assocGet (assocInsert l k v) j = assocGet l j := by
  have hkj : (k == j) = false := beq_eq_false_iff_ne.mpr (Ne.symm hj)
  induction l with
  | nil =>
    simp only [assocInsert, assocGet_cons]
    simp [hkj, assocGet]
  | cons p rest ih =>
    cases p with
    | mk k0 v0 =>
      simp only [assocInsert]
      by_cases h : (k0 == k) = true
      · have hk0 : k0 = k := beq_iff_eq.mp h
        subst hk0
        rw [if_pos h, assocGet_cons, assocGet_cons]
        simp [hkj]
      · rw [if_neg h, assocGet_cons, assocGet_cons, ih]

theorem assocGet_del_ne {K V : Type} [BEq K] [LawfulBEq K]
    (l : List (K × V)) (k : K) {j : K} (hj : j ≠ k) :
    assocGet (assocDel l k) j = assocGet l j := by
  induction l with
  | nil => rfl
  | cons p rest ih =>
    cases p with
    | mk k0 v0 =>
      simp only [assocDel]
      by_cases h : (k0 == k) = true
      · have hk0 : k0 = k := beq_iff_eq.mp h
        subst hk0
        rw [if_pos h, assocGet_cons]
        have : (k0 == j) = false := beq_eq_false_iff_ne.mpr (Ne.symm hj)
        simp [this]
      · rw [if_neg h, assocGet_cons, assocGet_cons, ih]

theorem assocGet_eq_none_of_not_mem {K V : Type} [BEq K] [LawfulBEq K]
    {l : List (K × V)} {k : K} (h : k ∉ l.map Prod.fst) : assocGet l k = none := by
  induction l with
  | nil => rfl
  | cons p rest ih =>
    simp only [List.map_cons, List.mem_cons] at h
    push_neg at h
    rw [assocGet_cons]
    have : (p.1 == k) = false := beq_eq_false_iff_ne.mpr (Ne.symm h.1)
    simp only [this, Bool.false_eq_true, if_false]
    exact ih h.2

theorem assocGet_del_self {K V : Type} [BEq K] [LawfulBEq K]
    {l : List (K × V)} {k : K} (hnd : (l.map Prod.fst).Nodup) :
    assocGet (assocDel l k) k = none := by
  induction l with
  | nil => rfl
  | cons p rest ih =>
    simp only [List.map_cons, List.nodup_cons] at hnd
    simp only [assocDel]
    by_cases h : (p.1 == k) = true
    · rw [if_pos h]
      have hk0 : p.1 = k := beq_iff_eq.mp h
      have : k ∉ rest.map Prod.fst := by
        rw [← hk0]
        exact hnd.1
      exact assocGet_eq_none_of_not_mem this
    · rw [if_neg h, assocGet_cons]
      simp only [h, Bool.false_eq_true, if_false]
      exact ih hnd.2

theorem hasKey_iff_mem {K V : Type} [BEq K] [LawfulBEq K] (l : List (K × V)) (k : K) :
    assocHasKey l k = true ↔ k ∈ l.map Prod.fst := by
  unfold assocHasKey
  rw [List.any_eq_true]
  constructor
  · rintro ⟨kv, hmem, hbeq⟩
    have : kv.1 = k := beq_iff_eq.mp hbeq
    exact this ▸ List.mem_map_of_mem Prod.fst hmem
  · intro hmem
    rcases List.mem_map.mp hmem with ⟨kv, hkv, hfst⟩
    exact ⟨kv, hkv, beq_iff_eq.mpr hfst⟩

theorem put_fresh_no_error {K V : Type} [BEq K] [LawfulBEq K]
    (m : TxResultMapper K V) (k : K) (v : V)
    (hinv : m.mapper.map Prod.fst = m.key_list) (hk : k ∉ m.key_list) :
    (m.put k v).2 = none ∧
    (m.put k v).1.mapper.map Prod.fst = (m.put k v).1.key_list ∧
    ∀ j, j ∈ (m.put k v).1.key_list → j ∈ m.key_list ∨ j = k := by
  have hfresh : assocHasKey m.mapper k = false := by
    rw [← Bool.not_eq_true, hasKey_iff_mem, hinv]
    exact hk
  by_cases hgt : m.len > m.limit_capacity
  · have hne : m.mapper ≠ [] := by
      intro he
      simp [TxResultMapper.len, he] at hgt
    cases hmap : m.mapper with
    | nil => exact absurd hmap hne
    | cons p mrest =>
      have hkl : m.key_list = p.1 :: mrest.map Prod.fst := by
        rw [← hinv, hmap, List.map_cons]
      have hhead : assocHasKey m.mapper p.1 = true := by
        rw [hmap, assocHasKey_cons]
        simp
      rw [put_evict m k v hgt hkl hhead]
      have hdel : assocDel m.mapper p.1 = mrest := by
        rw [hmap]
        simp [assocDel]
      rw [hdel]
      have hkrest : k ∉ mrest.map Prod.fst := by
        intro hmem
        exact hk (by rw [hkl]; exact List.mem_cons_of_mem _ hmem)
      have hfresh' : assocHasKey mrest k = false := by
        rw [← Bool.not_eq_true, hasKey_iff_mem]
        exact hkrest
      rw [assocInsert_of_not_hasKey v hfresh']
      refine ⟨rfl, ?_, ?_⟩
      · simp
      · intro j hj
        simp only [List.mem_append, List.mem_singleton] at hj
        rcases hj with hj | hj
        · exact Or.inl (by rw [hkl]; exact List.mem_cons_of_mem _ hj)
        · exact Or.inr hj
  · rw [put_small m k v hgt]
    rw [assocInsert_of_not_hasKey v hfresh]
    refine ⟨rfl, ?_, ?_⟩
    · simp [hinv]
    · intro j hj
      simp only [List.mem_append, List.mem_singleton] at hj
      exact hj

theorem putSeqErrs_fresh {K V : Type} [BEq K] [LawfulBEq K] :
    ∀ (ops : List (K × V)) (m : TxResultMapper K V),
    m.mapper.map Prod.fst = m.key_list →
    (∀ k, k ∈ ops.map Prod.fst → k ∉ m.key_list) →
    (ops.map Prod.fst).Nodup →
    (m.putSeqErrs ops).2 = List.replicate ops.length none := by
  intro ops
  induction ops with
  | nil => intro m _ _ _; rfl
  | cons op rest ih =>
    intro m hinv hdisj hnd
    cases op with
    | mk k v =>
      have hk : k ∉ m.key_list := hdisj k (by simp)
      obtain ⟨he, hinv', hsub⟩ := put_fresh_no_error m k v hinv hk
      simp only [List.map_cons, List.nodup_cons] at hnd
      have hdisj' : ∀ j, j ∈ rest.map Prod.fst → j ∉ (m.put k v).1.key_list := by
        intro j hj hjkl
        rcases hsub j hjkl with hjl | hjk
        · exact hdisj j (by simp [hj]) hjl
        · exact hnd.1 (hjk ▸ hj)
      have := ih ((m.put k v).1) hinv' hdisj' hnd.2
      simp only [TxResultMapper.putSeqErrs]
      rw [he, this]
      rfl

/-- C2: counterexample.  `__check_limit` evicts only when the mapping is
already strictly larger than the capacity, and it runs before the insert,
so a `TxResultMapper` configured with capacity 1000 reaches 1001 entries:
after 1001 `put` calls with distinct keys the mapping holds 1001 > 1000
entries, refuting the claimed bound of 1000. -/
theorem txResultMapper_exceeds_capacity_1000 :
    ((TxResultMapper.empty 1000 : TxResultMapper Nat Nat).putSeq (freshOps 0 1001)).len = 1001 ∧
    1000 < 1001 := by
  constructor
  · rw [putSeq_fresh_state]
    simp [TxResultMapper.len, length_freshOps]
  · norm_num

/-- C2: amended theorem.  For every sequence of `put` calls on a
`TxResultMapper` configured with capacity 1000, after each put the number
of entries in the mapping is at most 1001 (capacity + 1): any point of a
put sequence is the end state of its own initial segment, and the bound
holds for every sequence from the empty cache. -/
theorem txResultMapper_len_le_capacity_succ {K V : Type} [BEq K] (ops : List (K × V)) :
    ((TxResultMapper.empty 1000 : TxResultMapper K V).putSeq ops).len ≤ 1001 :=
  len_putSeq_le ops (TxResultMapper.empty 1000) (by simp [TxResultMapper.empty, TxResultMapper.len])

/-- C3: amended theorem.  When a `put` on a cache with unique mapped keys
triggers eviction and the head `k0` of the append-only order log is still
a key of the mapping, the put does not raise and removes exactly the entry
of `k0` — the key with the EARLIEST surviving position in the insertion
log, not the most recent-insertion order the claim describes — inserts the
new binding, and leaves every other entry untouched. -/
theorem put_evicts_order_log_head {K V : Type} [BEq K] [LawfulBEq K]
    (m : TxResultMapper K V) (k : K) (v : V) {k0 : K} {rest : List K}
    (hlen : m.len > m.limit_capacity) (hkl : m.key_list = k0 :: rest)
    (hmem : assocHasKey m.mapper k0 = true)
    (hnd : (m.mapper.map Prod.fst).Nodup) :
    (m.put k v).2 = none ∧
    (m.put k v).1.get k = some v ∧
    (k0 ≠ k → (m.put k v).1.get k0 = none) ∧
    ∀ j, j ≠ k → j ≠ k0 → (m.put k v).1.get j = m.get j := by
  rw [put_evict m k v hlen hkl hmem]
  refine ⟨rfl, ?_, ?_, ?_⟩
  · exact assocGet_insert_self _ _ _
  · intro hk0k
    show assocGet (assocInsert (assocDel m.mapper k0) k v) k0 = none
    rw [assocGet_insert_ne _ _ _ hk0k]
    exact assocGet_del_self hnd
  · intro j hjk hjk0
    show assocGet (assocInsert (assocDel m.mapper k0) k v) j = m.get j
    rw [assocGet_insert_ne _ _ _ hjk]
    exact assocGet_del_ne _ _ hjk0

/-- C3: witness.  A capacity-1 cache holding keys 5 and 6: putting key 7
evicts exactly key 5 (the log head), keeps key 6, and stores key 7. -/
theorem put_evicts_order_log_head_witness :
    ((TxResultMapper.mk 1 [(5, 10), (6, 20)] [5, 6] : TxResultMapper Nat Nat).put 7 30).2 = none ∧
    ((TxResultMapper.mk 1 [(5, 10), (6, 20)] [5, 6] : TxResultMapper Nat Nat).put 7 30).1.get 7 = some 30 ∧
    ((TxResultMapper.mk 1 [(5, 10), (6, 20)] [5, 6] : TxResultMapper Nat Nat).put 7 30).1.get 5 = none ∧
    ((TxResultMapper.mk 1 [(5, 10), (6, 20)] [5, 6] : TxResultMapper Nat Nat).put 7 30).1.get 6 = some 20 := by
  have h := put_evicts_order_log_head
    (TxResultMapper.mk 1 [(5, 10), (6, 20)] [5, 6] : TxResultMapper Nat Nat) 7 30
    (by decide) rfl (by decide) (by decide)
  exact ⟨h.1, h.2.1, h.2.2.1 (by decide), (h.2.2.2 6 (by decide) (by decide)).trans (by decide)⟩

/-- C3: counterexample.  Capacity 2, puts of keys 0, 1, 0, 2, 3 in that
order.  Key 0's most recent insertion (the third put) is later than key
1's only insertion (the second put), so by the claim's
most-recent-insertion order the oldest surviving entry is key 1 and the
fifth put would evict key 1 and keep key 0.  The code instead reads
position 0 of the append-only log, evicting key 0 and keeping key 1. -/
theorem evicted_entry_is_earliest_log_position_not_most_recent :
    ((TxResultMapper.empty 2 : TxResultMapper Nat Nat).putSeq
      [(0, 0), (1, 1), (0, 2), (2, 3), (3, 4)]).get 0 = none ∧
    ((TxResultMapper.empty 2 : TxResultMapper Nat Nat).putSeq
      [(0, 0), (1, 1), (0, 2), (2, 3), (3, 4)]).get 1 = some 1 ∧
    ((TxResultMapper.empty 2 : TxResultMapper Nat Nat).putSeq
      [(0, 0), (1, 1), (0, 2), (2, 3), (3, 4)]).len = 3 := by
  decide

/-- C10: counterexample.  Capacity 1, puts of keys 0, 0, 1, 2: the
duplicate insertion of key 0 leaves two entries for it in the order log,
eviction during the put of key 2 removes key 0 from the mapping while its
second log entry survives, and the next put finds the log head 0 absent
from the mapping: `del self.__mapper[key]` raises `KeyError`, so `put` is
not total. -/
theorem put_raises_keyError_on_duplicate_history :
    (((TxResultMapper.empty 1 : TxResultMapper Nat Nat).putSeq
      [(0, 0), (0, 1), (1, 2), (2, 3)]).put 3 4).2 = some PyErr.keyError := rfl

/-- C10: amended theorem.  `get` is total by construction (it returns an
`Option` and raises nothing); `put` raises no exception on every sequence
of puts whose keys are pairwise distinct — the eviction step then always
finds the logged key in the mapping.  With repeated keys a put can raise
`KeyError` (see the counterexample). -/
theorem putSeq_distinct_keys_no_error {K V : Type} [BEq K] [LawfulBEq K]
    (ops : List (K × V)) (hnd : (ops.map Prod.fst).Nodup) :
    ((TxResultMapper.empty 1000 : TxResultMapper K V).putSeqErrs ops).2 =
      List.replicate ops.length none :=
  putSeqErrs_fresh ops (TxResultMapper.empty 1000) rfl
    (fun k _ h => (List.not_mem_nil k) h) hnd

/-- C10: witness.  Two puts with distinct keys 1 and 2 raise nothing. -/
theorem putSeq_distinct_keys_no_error_witness :
    ((TxResultMapper.empty 1000 : TxResultMapper Nat Nat).putSeqErrs [(1, 10), (2, 20)]).2 =
      List.replicate 2 none :=
  putSeq_distinct_keys_no_error [(1, 10), (2, 20)] (by decide)

/-- C1: amended theorem.  For every `icx_sendTransaction` call that passes
validation and reaches the backend-execution step, if the backend reply is
a non-list, or a non-empty list whose first entry supports the `status`
lookup, then exactly one of `write_precommit_state` /
`remove_precommit_state` is awaited exactly once before the response
(success value or raised error) is produced.  An empty-list reply (or a
first entry without a usable `status`) instead raises before either call
(see the counterexample). -/
theorem sendTransaction_exactly_one_commit_or_rollback
    (st : ServerState) (ps : List (String × JVal)) (env : TxEnv)
    (hval : env.validation = ValidationOutcome.ok)
    (hshape : (∀ items, env.backend_reply ≠ JVal.arr items) ∨
      (∃ first rest s, env.backend_reply = JVal.arr (first :: rest) ∧
        jvalGetItem first "status" = Except.ok s)) :
    countCommitRollback (icx_sendTransaction st ps env).backend_calls = 1 := by
  unfold icx_sendTransaction
  rw [hval]
  simp only [validate_jsonrpc_message]
  cases hreply : env.backend_reply with
  | arr items =>
    rcases hshape with h | ⟨first, rest, s, harr, hstat⟩
    · exact absurd hreply (h items)
    · rw [hreply] at harr
      injection harr with he
      subst he
      simp only []
      rw [hstat]
      by_cases hs : (s == JVal.int 1) = true
      · simp [hs, countCommitRollback]
      · simp only [Bool.not_eq_true] at hs
        simp [hs, countCommitRollback]
  | null => simp [countCommitRollback]
  | int n => simp [countCommitRollback]
  | str s => simp [countCommitRollback]
  | dict kvs => simp [countCommitRollback]

/-- C1: witness.  A success-status reply leads to exactly one
commit/rollback call. -/
theorem sendTransaction_commit_or_rollback_witness :
    countCommitRollback (icx_sendTransaction initServerState []
      ⟨ValidationOutcome.ok, "0xhash", 0, "0xblock",
        JVal.arr [JVal.dict [("status", JVal.int 1), ("txHash", JVal.str "0xhash")]]⟩).backend_calls
      = 1 :=
  sendTransaction_exactly_one_commit_or_rollback _ _ _ rfl
    (Or.inr ⟨_, _, _, rfl, rfl⟩)

/-- C1: counterexample.  A backend reply that is the empty list is a list,
so the rollback-on-non-list branch is skipped, and `response[0]['status']`
raises `IndexError` before the commit/rollback decision: neither
`write_precommit_state` nor `remove_precommit_state` is invoked, refuting
the claim that every reply shape leads to exactly one of them. -/
theorem sendTransaction_empty_reply_skips_commit_and_rollback :
    countCommitRollback (icx_sendTransaction initServerState []
      ⟨ValidationOutcome.ok, "0xhash", 0, "0xblock", JVal.arr []⟩).backend_calls = 0 ∧
    (icx_sendTransaction initServerState []
      ⟨ValidationOutcome.ok, "0xhash", 0, "0xblock", JVal.arr []⟩).response =
      .error PyErr.indexError :=
  ⟨rfl, rfl⟩

/-- C8: confirmed.  When parameter validation fails, `icx_sendTransaction`
raises that error with no backend call recorded (no execute, no commit, no
rollback) and the server state — block-height counter and result cache —
returned exactly as it was. -/
theorem sendTransaction_validation_failure_no_effects
    (st : ServerState) (ps : List (String × JVal)) (env : TxEnv) (e : PyErr)
    (hval : validate_jsonrpc_message env.validation = .error e) :
    icx_sendTransaction st ps env = ⟨[], st, none, .error e⟩ := by
  unfold icx_sendTransaction
  rw [hval]

/-- C8: witness.  A domain validation failure (code 100, "insufficient
balance") leaves the initial state untouched and raises the negated-code
error. -/
theorem sendTransaction_validation_failure_no_effects_witness :
    icx_sendTransaction initServerState []
      ⟨ValidationOutcome.domainError 100 "insufficient balance", "0xhash", 0, "0xblock",
        JVal.null⟩ =
      ⟨[], initServerState, none,
        .error (.jsonRpcError (-100) (.str "insufficient balance") 400)⟩ :=
  sendTransaction_validation_failure_no_effects _ _ _ _ rfl

theorem sendTransaction_accepted_height
    (st : ServerState) (ps : List (String × JVal)) (env : TxEnv)
    (hval : env.validation = ValidationOutcome.ok) :
    (icx_sendTransaction st ps env).block_height_used = some (st.block_height + 1) ∧
    (icx_sendTransaction st ps env).state.block_height = st.block_height + 1 := by
  unfold icx_sendTransaction
  rw [hval]
  exact ⟨rfl, rfl⟩

theorem runSendTxSeq_heights (calls : List (List (String × JVal) × TxEnv))
    (hall : ∀ c ∈ calls, c.2.validation = ValidationOutcome.ok) :
    ∀ st : ServerState,
      (runSendTxSeq st calls).2 = (List.range' (st.block_height + 1) calls.length).map some := by
  induction calls with
  | nil => intro st; rfl
  | cons c rest ih =>
    intro st
    obtain ⟨hbu, hbh⟩ :=
      sendTransaction_accepted_height st c.1 c.2 (hall c (List.mem_cons_self c rest))
    have hrest := ih (fun d hd => hall d (List.mem_cons_of_mem c hd))
      ((icx_sendTransaction st c.1 c.2).state)
    simp only [runSendTxSeq]
    rw [hbu, hrest, hbh, List.length_cons, List.range'_succ, List.map_cons]

/-- C4: confirmed.  For every sequence of `icx_sendTransaction` calls that
pass validation, starting from the initial server state, the block heights
placed in the synthetic block descriptors are exactly 1, 2, ..., n: the
first accepted call observes 1, each accepted call increments by exactly
1, and no two calls observe the same height. -/
theorem block_height_starts_at_one_and_increments (calls : List (List (String × JVal) × TxEnv))
    (hall : ∀ c ∈ calls, c.2.validation = ValidationOutcome.ok) :
    (runSendTxSeq initServerState calls).2 = (List.range' 1 calls.length).map some :=
  runSendTxSeq_heights calls hall initServerState

/-- C4: witness.  Three accepted calls (with a malformed, a non-list and a
success reply) observe heights 1, 2, 3. -/
theorem block_height_witness :
    (runSendTxSeq initServerState
      [([], ⟨ValidationOutcome.ok, "0xa", 0, "0xb", JVal.arr []⟩),
       ([], ⟨ValidationOutcome.ok, "0xc", 1, "0xd", JVal.null⟩),
       ([], ⟨ValidationOutcome.ok, "0xe", 2, "0xf",
         JVal.arr [JVal.dict [("status", JVal.int 1), ("txHash", JVal.str "0xe")]]⟩)]).2 =
      [some 1, some 2, some 3] := by
  rw [block_height_starts_at_one_and_increments _ (by decide)]
  rfl

/-- C6: amended theorem.  An undecodable request body always yields HTTP
status 400 with the one fixed parse-error envelope — json-rpc error code
-32700, message "Parse error" — independent of the method and request;
the envelope's request identifier, however, is the JSON string "null"
(the constant quotes it), not null, and the constant is passed to the
response as a pre-serialized string. -/
theorem dispatch_parse_error_fixed_envelope :
    (∀ handler, dispatch (.error ()) handler =
      { body := .str PARSE_ERROR_RESPONSE, status := 400 }) ∧
    jvalGetItem PARSE_ERROR_RESPONSE_json "error" =
      .ok (.dict [("code", .int (-32700)), ("message", .str "Parse error")]) ∧
    jvalGetItem PARSE_ERROR_RESPONSE_json "id" = .ok (.str "null") :=
  ⟨fun _ => rfl, rfl, rfl⟩

/-- C6: counterexample.  The `id` field of the parse-error envelope is the
string "null", which is not the JSON null the claim requires. -/
theorem parse_error_envelope_id_is_string_null :
    jvalGetItem PARSE_ERROR_RESPONSE_json "id" = .ok (.str "null") ∧
    JVal.str "null" ≠ JVal.null :=
  ⟨rfl, fun h => JVal.noConfusion h⟩

/-- C7: confirmed.  `icx_getTransactionResult` is total (it returns a
value or a structured error, by construction): when the params lack
`txHash` or the hash is not a key of the cache it fails with exactly the
"TransactionResult not found" error carrying `InvalidParams.code` and HTTP
bad-request status; the only error it can ever produce is that one; and
when the hash is present the stored result is returned verbatim. -/
theorem getTransactionResult_not_found_or_stored (request_params : List (String × JVal))
    (m : TxResultMapper JVal JVal) :
    (assocGet request_params "txHash" = none →
      icx_getTransactionResult request_params m = .error TX_RESULT_NOT_FOUND) ∧
    (∀ h, assocGet request_params "txHash" = some h → assocGet m.mapper h = none →
      icx_getTransactionResult request_params m = .error TX_RESULT_NOT_FOUND) ∧
    (∀ h v, assocGet request_params "txHash" = some h → assocGet m.mapper h = some v →
      icx_getTransactionResult request_params m = .ok v) ∧
    (∀ e, icx_getTransactionResult request_params m = .error e → e = TX_RESULT_NOT_FOUND) := by
  refine ⟨?_, ?_, ?_, ?_⟩
  · intro hp
    simp only [icx_getTransactionResult, TxResultMapper.getitem, hp]
  · intro h hp hm
    simp only [icx_getTransactionResult, TxResultMapper.getitem, hp, hm]
  · intro h v hp hm
    simp only [icx_getTransactionResult, TxResultMapper.getitem, hp, hm]
  · intro e
    unfold icx_getTransactionResult TxResultMapper.getitem
    cases hp : assocGet request_params "txHash" with
    | none =>
      simp only [hp]
      intro he
      injection he with he'
      exact he'.symm
    | some h =>
      simp only [hp]
      cases hm : assocGet m.mapper h with
      | none =>
        simp only [hm]
        intro he
        injection he with he'
        exact he'.symm
      | some v =>
        simp only [hm]
        intro he
        exact Except.noConfusion he

/-- C7: witness.  Missing field, unknown hash, and stored-hash lookups. -/
theorem getTransactionResult_witness :
    icx_getTransactionResult [] (TxResultMapper.empty 1000) = .error TX_RESULT_NOT_FOUND ∧
    icx_getTransactionResult [("txHash", JVal.str "0xa")] (TxResultMapper.empty 1000) =
      .error TX_RESULT_NOT_FOUND ∧
    icx_getTransactionResult [("txHash", JVal.str "0xa")]
      (TxResultMapper.mk 1000 [(JVal.str "0xa", JVal.int 5)] [JVal.str "0xa"]) =
      .ok (JVal.int 5) := by
  refine ⟨?_, ?_, ?_⟩
  · exact (getTransactionResult_not_found_or_stored [] (TxResultMapper.empty 1000)).1 rfl
  · exact (getTransactionResult_not_found_or_stored [("txHash", JVal.str "0xa")]
      (TxResultMapper.empty 1000)).2.1 (JVal.str "0xa") rfl rfl
  · exact (getTransactionResult_not_found_or_stored [("txHash", JVal.str "0xa")]
      (TxResultMapper.mk 1000 [(JVal.str "0xa", JVal.int 5)] [JVal.str "0xa"])).2.2.1
      (JVal.str "0xa") (JVal.int 5) rfl rfl
